import Mathlib

/-!
Verification of the result-ordering, date-parsing and formatting core of the
`checkssl` CLI (`lib/helper.js`).  JavaScript strings are modelled as `List Char`,
JS `Number` on the digit strings this code feeds it as exact integers, and
`Date` values at day granularity (the source compares millisecond values of
local midnights, which orders two midnights exactly as their day numbers do).
-/

deriving instance DecidableEq for Except

/-- JavaScript strings, modelled as lists of characters. -/
abbrev Str := List Char

/-- Embed a Lean string literal as a `Str`. -/
def str (s : String) : Str := s.data

/-- Does `s` start with `p`?  (Auxiliary for substring containment.) -/
def startsWithStr : Str → Str → Bool
  | _, [] => true
  | [], _ :: _ => false
  | c :: cs, d :: ds => c == d && startsWithStr cs ds

/-- JS `s.includes(sub)`: substring containment. -/
def containsSub (s sub : Str) : Bool :=
  match s with
  | [] => sub.isEmpty
  | _ :: rest => startsWithStr s sub || containsSub rest sub

/-- `result.includes('Error')` from the sort comparator (case-sensitive). -/
def includesError (s : Str) : Bool := containsSub s (str "Error")

/-- Auxiliary for `splitOnChar`: accumulates the current (reversed) chunk. -/
def splitOnCharAux (sep : Char) : Str → Str → List Str
  | [], acc => [acc.reverse]
  | c :: cs, acc =>
    if c == sep then acc.reverse :: splitOnCharAux sep cs []
    else splitOnCharAux sep cs (c :: acc)

/-- JS `s.split(sep)` for a single-character separator: `"".split('.') = [""]`,
`"a.b".split('.') = ["a","b"]`, `"..".split('.') = ["","",""]`. -/
def splitOnChar (sep : Char) (s : Str) : List Str := splitOnCharAux sep s []

/-- Numeric value of a decimal digit character. -/
def digitVal (c : Char) : Nat := c.toNat - '0'.toNat

/-- Integer value of a string of decimal digits (value `0` for `""`, as JS
`Number('')` is `0`). -/
def strVal (s : Str) : Int :=
  s.foldl (fun acc c => 10 * acc + (digitVal c : Int)) 0

/-- JS `Number(s)`, modelled for the inputs this code path produces: a string of
decimal digits converts to its exact integer value (`""` to `0`, as in JS);
everything else is modelled as `NaN` (`none`).  The full JS conversion also
accepts signs, fractions, exponents, hex and surrounding whitespace, and loses
precision past 2^53; no date component handled here takes those forms. -/
def jsNumber (s : Str) : Option Int :=
  if s.all Char.isDigit then some (strVal s) else none

/-- Days from the civil epoch 1970-01-01 of the first day of month `m` (1-based)
in year `y`, proleptic Gregorian (the calendar ECMAScript `Date` uses). -/
def daysFromCivil (y m : Int) : Int :=
  let y' := if m ≤ 2 then y - 1 else y
  let era := (if 0 ≤ y' then y' else y' - 399) / 400
  let yoe := y' - era * 400
  let mp := (m + 9) % 12
  let doy := (153 * mp + 2) / 5
  let doe := yoe * 365 + yoe / 4 - yoe / 100 + doy
  era * 146097 + doe - 719468

/-- JS `new Date(year, monthIndex, day)`, at day granularity: ECMAScript
`MakeDay` adds `monthIndex` months (with year carry) to January of `year` and
then offsets by `day - 1` days, so out-of-range days roll over into later
months.  The source compares the resulting millisecond values of local
midnights; two such values compare exactly as the day numbers modelled here. -/
def newDate (year monthIndex day : Int) : Int :=
  let ym := year + monthIndex.fdiv 12
  let mn := monthIndex.emod 12
  daysFromCivil ym (mn + 1) + (day - 1)

/-- The failure cases of `parseDate` (each a distinct thrown `Error` message in
the source). -/
inductive ParseErr where
  | invalidInput
  | invalidFormat
  | invalidComponents
  | outOfRange
deriving DecidableEq

/-- The component validation of `parseDate` (`isNaN` checks, then the range
check `day < 1 || day > 31 || month < 1 || month > 12 || year < 1000`). -/
def validateDMY : Option Int → Option Int → Option Int → Except ParseErr (Int × Int × Int)
  | some day, some month, some year =>
    if day < 1 ∨ day > 31 ∨ month < 1 ∨ month > 12 ∨ year < 1000 then
      Except.error ParseErr.outOfRange
    else
      Except.ok (day, month, year)
  | _, _, _ => Except.error ParseErr.invalidComponents

/-- `parseDate` from `lib/helper.js` up to the point where the validated
`(day, month, year)` components are in hand (source lines 105-124): reject
empty input, split on `'.'`, require exactly three parts, convert each with
`Number`, reject `NaN` components, then range-check.  (The `typeof` guard of
the source is vacuous in this typed model.) -/
def parseDateParts (s : Str) : Except ParseErr (Int × Int × Int) :=
  if s.isEmpty then Except.error ParseErr.invalidInput
  else
    match splitOnChar '.' s with
    | [p1, p2, p3] => validateDMY (jsNumber p1) (jsNumber p2) (jsNumber p3)
    | _ => Except.error ParseErr.invalidFormat

/-- `parseDate` from `lib/helper.js`: the validated components fed to
`new Date(year, month - 1, day)` (source line 126). -/
def parseDate (s : Str) : Except ParseErr Int :=
  (parseDateParts s).map (fun t => newDate t.2.2 (t.2.1 - 1) t.1)

/-- Modelled from the spec: the repository's current `lib/helper.js` `parseDate`
with American-layout support is not among the provided source files (only its
tests, which assert `parseDate('02/01/2025')` is February 1st, and the README
feature list are).  Spec §4.1: layouts are tried in priority order — dot-separated
`dd.mm.yyyy` day-first, then slash-separated `mm/dd/yyyy` month-first; the
separator character alone selects the layout; then the same exactly-three /
numeric / range validation as the dot parser, with the result normalized to a
`(day, month, year)` triple. -/
def parseDateSpec (s : Str) : Except ParseErr (Int × Int × Int) :=
  if s.isEmpty then Except.error ParseErr.invalidInput
  else
    match splitOnChar '.' s with
    | [p1, p2, p3] => validateDMY (jsNumber p1) (jsNumber p2) (jsNumber p3)
    | _ =>
      match splitOnChar '/' s with
      | [p1, p2, p3] => validateDMY (jsNumber p2) (jsNumber p1) (jsNumber p3)
      | _ => Except.error ParseErr.invalidFormat

/-- One element of the `results` array: `{ domain, result }` with the string
fields the certificate checker produces. -/
structure DomainResult where
  domain : Str
  result : Str
deriving DecidableEq

/-- The `direction` argument of `sortResults` (`'asc'` default, `'desc'`). -/
inductive Dir where
  | asc
  | desc
deriving DecidableEq

/-- The comparator of `sortResults` (source lines 146-196), parametric in the
date parser it calls so that parser-independence where `'Error'` markers are
involved is expressible: error markers compare last among themselves equal;
otherwise both results are parsed, entries whose parse throws compare after
ones whose parse succeeds and equal among themselves; two parsed dates compare
by date difference, reversed under `'desc'`.  The source's outer
`catch { return 0 }` is unreachable here: the two inner `try`s absorb every
`parseDate` throw and date subtraction cannot throw. -/
def compareResultsP (parse : Str → Except ParseErr Int) (direction : Dir)
    (a b : DomainResult) : Int :=
  if includesError a.result && includesError b.result then 0
  else if includesError a.result then 1
  else if includesError b.result then -1
  else
    match parse a.result, parse b.result with
    | Except.error _, Except.error _ => 0
    | Except.error _, Except.ok _ => 1
    | Except.ok _, Except.error _ => -1
    | Except.ok dateA, Except.ok dateB =>
      if direction = Dir.desc then dateB - dateA else dateA - dateB

/-- The comparator of `sortResults` with the parser the source calls. -/
def compareResults (direction : Dir) (a b : DomainResult) : Int :=
  compareResultsP parseDate direction a b

/-- Insert `x` into `l` in front of the first element `y` with `cmp y x ≥ 0`
(auxiliary for the stable comparator sort). -/
def insertCmp (cmp : α → α → Int) (x : α) : List α → List α
  | [] => [x]
  | y :: ys => if cmp y x < 0 then y :: insertCmp cmp x ys else x :: y :: ys

/-- ECMAScript `Array.prototype.sort(cmp)` on the element sequence: required
since ES2019 to be stable, and with a consistent comparator (as here) its
output is the unique stable `cmp`-ordering of the input, modelled by stable
insertion sort. -/
def jsSortCmp (cmp : α → α → Int) : List α → List α
  | [] => []
  | x :: xs => insertCmp cmp x (jsSortCmp cmp xs)

/-- `sortResults` from `lib/helper.js` on an actual array (source line 146):
`results.sort(comparator)`. -/
def sortResults (results : List DomainResult) (direction : Dir) : List DomainResult :=
  jsSortCmp (compareResults direction) results

/-- The JavaScript values a caller can pass where an array of results is
expected: a results array, a string, `null`, or `undefined`. -/
inductive JsVal where
  | arr (elems : List DomainResult)
  | strV (s : Str)
  | nullV
  | undef
deriving DecidableEq

/-- `sortResults` including its `Array.isArray` guard (source lines 141-146):
a non-array argument throws `Error('Results must be an array')`, an array is
sorted. -/
def sortResultsJs (v : JsVal) (direction : Dir) : Except Str (List DomainResult) :=
  match v with
  | JsVal.arr l => Except.ok (sortResults l direction)
  | _ => Except.error (str "Results must be an array")

/-- A reference heap: JS object references (array identities) to values. -/
def Heap : Type := Nat → JsVal

/-- Heap update at one reference. -/
def writeRef (h : Heap) (r : Nat) (v : JsVal) : Heap :=
  fun q => if q = r then v else h q

/-- `sortResults` at the reference level: `Array.prototype.sort` sorts the
array held by `this` in place and returns the same reference, so the source's
`return results.sort(...)` yields the caller's own array, mutated (source
lines 141-198). -/
def sortResultsRef (h : Heap) (r : Nat) (direction : Dir) : Except Str (Nat × Heap) :=
  match h r with
  | JsVal.arr l => Except.ok (r, writeRef h r (JsVal.arr (sortResults l direction)))
  | _ => Except.error (str "Results must be an array")

/-- The three ordering buckets of the comparator. -/
inductive Tier where
  | valid
  | invalid
  | errMarker
deriving DecidableEq

/-- The classification the comparator applies to one result string, parametric
in the date-parse success predicate: the `'Error'`-substring check comes first
and short-circuits; only otherwise is the parser consulted. -/
def classifyWith (parseOk : Str → Bool) (s : Str) : Tier :=
  if includesError s then Tier.errMarker
  else if parseOk s then Tier.valid
  else Tier.invalid

/-- Did `parseDate` succeed (the `aIsValid` / `bIsValid` flags of the source)? -/
def parseOkB (s : Str) : Bool := (parseDate s).isOk

/-- The classification `sortResults` effectively applies to a result string. -/
def classifyRes (s : Str) : Tier := classifyWith parseOkB s

/-- Numeric rank of a tier: `Valid` sorts before `Invalid` before `ErrorMarker`. -/
def tierNum : Tier → Nat
  | Tier.valid => 0
  | Tier.invalid => 1
  | Tier.errMarker => 2

/-- Boolean: does this entry land in the `Valid` tier? -/
def isValidB (r : DomainResult) : Bool := classifyRes r.result == Tier.valid

/-- Boolean: does this entry land in the `Invalid` tier? -/
def isInvalidB (r : DomainResult) : Bool := classifyRes r.result == Tier.invalid

/-- Boolean: does this entry land in the `ErrorMarker` tier? -/
def isErrB (r : DomainResult) : Bool := classifyRes r.result == Tier.errMarker

/-- `domainLengthReducer` from `lib/helper.js` (source lines 90-95), on the
string domains it is folded over. -/
def domainLengthReducer (maxLength : Nat) (domain : Str) : Nat :=
  max maxLength domain.length

/-- JS `s.padEnd(n)`: append spaces up to length `n` (a string already at least
`n` long is returned unchanged). -/
def padEnd (s : Str) (n : Nat) : Str := s ++ List.replicate (n - s.length) ' '

/-- `formatResults` from `lib/helper.js` on an actual array (source lines
214-219): pad each domain to `Math.max(maxDomainLength, 10)` and render
`| <paddedDomain> | <result> |`. -/
def formatResults (results : List DomainResult) (maxDomainLength : Nat) : List Str :=
  let minPadding := max maxDomainLength 10
  results.map (fun r =>
    str "| " ++ padEnd r.domain minPadding ++ str " | " ++ r.result ++ str " |")

/-- `separator` from `lib/helper.js` (source lines 229-232):
`'='.repeat(Math.max(maxDomainLength, 10) + 17)`. -/
def separator (maxDomainLength : Nat) : Str :=
  List.replicate (max maxDomainLength 10 + 17) '='

theorem splitOnCharAux_no_sep {sep : Char} {a : Str} (h : ∀ c ∈ a, c ≠ sep) :
    ∀ acc : Str, splitOnCharAux sep a acc = [acc.reverse ++ a] := by
  induction a with
  | nil => intro acc; simp [splitOnCharAux]
  | cons x xs ih =>
    intro acc
    have hx : x ≠ sep := h x (List.mem_cons_self x xs)
    have hxs : ∀ c ∈ xs, c ≠ sep := fun c hc => h c (List.mem_cons_of_mem x hc)
    simp [splitOnCharAux, hx, ih hxs]

theorem splitOnCharAux_with_sep {sep : Char} {a : Str} (h : ∀ c ∈ a, c ≠ sep) (t : Str) :
    ∀ acc : Str, splitOnCharAux sep (a ++ sep :: t) acc =
      (acc.reverse ++ a) :: splitOnCharAux sep t [] := by
  induction a with
  | nil => intro acc; simp [splitOnCharAux]
  | cons x xs ih =>
    intro acc
    have hx : x ≠ sep := h x (List.mem_cons_self x xs)
    have hxs : ∀ c ∈ xs, c ≠ sep := fun c hc => h c (List.mem_cons_of_mem x hc)
    simp [splitOnCharAux, hx, ih hxs]

theorem splitOnChar_three {sep : Char} {a b c : Str}
    (ha : ∀ x ∈ a, x ≠ sep) (hb : ∀ x ∈ b, x ≠ sep) (hc : ∀ x ∈ c, x ≠ sep) :
    splitOnChar sep (a ++ sep :: (b ++ sep :: c)) = [a, b, c] := by
  unfold splitOnChar
  rw [splitOnCharAux_with_sep ha, splitOnCharAux_with_sep hb, splitOnCharAux_no_sep hc]
  simp

theorem digit_ne_dot {c : Char} (h : c.isDigit = true) : c ≠ '.' := by
  intro hc; subst hc; exact absurd h (by decide)

theorem digit_ne_slash {c : Char} (h : c.isDigit = true) : c ≠ '/' := by
  intro hc; subst hc; exact absurd h (by decide)

theorem jsNumber_digits {s : Str} (h : s.all Char.isDigit = true) :
    jsNumber s = some (strVal s) := by
  simp [jsNumber, h]

theorem all_ne_of_digits {s : Str} (h : s.all Char.isDigit = true) {d : Char}
    (hd : d.isDigit = false) : ∀ x ∈ s, x ≠ d := by
  intro x hx he
  subst he
  rw [List.all_eq_true] at h
  exact absurd (h x hx) (by simp [hd])

/-- C5: for every dot-separated string with exactly three numeric components
`day.month.year`, `parseDate` succeeds if and only if `day ∈ [1,31]`,
`month ∈ [1,12]` and `year ≥ 1000` (no calendar awareness), recovering exactly
that positional triple on success, and failing with the out-of-range error
otherwise. -/
theorem parseDate_dot_recovers_triple (a b c : Str)
    (ha : a ≠ [] ∧ a.all Char.isDigit = true)
    (hb : b ≠ [] ∧ b.all Char.isDigit = true)
    (hc : c ≠ [] ∧ c.all Char.isDigit = true) :
    (1 ≤ strVal a ∧ strVal a ≤ 31 ∧ 1 ≤ strVal b ∧ strVal b ≤ 12 ∧ 1000 ≤ strVal c →
      parseDateParts (a ++ '.' :: (b ++ '.' :: c)) =
        Except.ok (strVal a, strVal b, strVal c)) ∧
    (¬ (1 ≤ strVal a ∧ strVal a ≤ 31 ∧ 1 ≤ strVal b ∧ strVal b ≤ 12 ∧ 1000 ≤ strVal c) →
      parseDateParts (a ++ '.' :: (b ++ '.' :: c)) =
        Except.error ParseErr.outOfRange) := by
  obtain ⟨a0, a', rfl⟩ : ∃ a0 a', a = a0 :: a' := by
    cases a with
    | nil => exact absurd rfl ha.1
    | cons a0 a' => exact ⟨a0, a', rfl⟩
  have hsplit : splitOnChar '.' ((a0 :: a') ++ '.' :: (b ++ '.' :: c)) = [a0 :: a', b, c] :=
    splitOnChar_three (all_ne_of_digits ha.2 (by decide))
      (all_ne_of_digits hb.2 (by decide)) (all_ne_of_digits hc.2 (by decide))
  have hform : parseDateParts ((a0 :: a') ++ '.' :: (b ++ '.' :: c)) =
      validateDMY (some (strVal (a0 :: a'))) (some (strVal b)) (some (strVal c)) := by
    rw [parseDateParts]
    simp only [List.cons_append, List.isEmpty_cons]
    rw [← List.cons_append, hsplit]
    simp only [Bool.false_eq_true, if_false]
    show validateDMY (jsNumber (a0 :: a')) (jsNumber b) (jsNumber c) = _
    rw [jsNumber_digits ha.2, jsNumber_digits hb.2, jsNumber_digits hc.2]
  constructor
  · intro hr
    rw [hform, validateDMY, if_neg (by omega)]
  · intro hr
    rw [hform, validateDMY, if_pos (by omega)]

/-- Witness for C5 at the spec's own examples: `"02.01.2025"` parses to
day 2, month 1, year 2025, and `"32.01.2025"` fails out of range. -/
theorem parseDate_dot_recovers_triple_witness :
    parseDateParts (str "02.01.2025") = Except.ok (2, 1, 2025) ∧
    parseDateParts (str "32.01.2025") = Except.error ParseErr.outOfRange := by
  constructor
  · have h := (parseDate_dot_recovers_triple (str "02") (str "01") (str "2025")
      ⟨by decide, by decide⟩ ⟨by decide, by decide⟩ ⟨by decide, by decide⟩).1
      (by refine ⟨?_, ?_, ?_, ?_, ?_⟩ <;> decide)
    exact h
  · have h := (parseDate_dot_recovers_triple (str "32") (str "01") (str "2025")
      ⟨by decide, by decide⟩ ⟨by decide, by decide⟩ ⟨by decide, by decide⟩).2
      (by intro hcon; exact absurd hcon.2.1 (by decide))
    exact h

/-- C1: for every slash-separated string of three numeric components with
month in `[1,12]`, day in `[1,31]`, year ≥ 1000, the spec-modelled parser
succeeds and reads it month-first, and the same components joined with dots
are read day-first: the separator character alone selects the layout. -/
theorem parseDateSpec_slash_month_first (a b c : Str)
    (ha : a ≠ [] ∧ a.all Char.isDigit = true)
    (hb : b ≠ [] ∧ b.all Char.isDigit = true)
    (hc : c ≠ [] ∧ c.all Char.isDigit = true) :
    (1 ≤ strVal a ∧ strVal a ≤ 12 ∧ 1 ≤ strVal b ∧ strVal b ≤ 31 ∧ 1000 ≤ strVal c →
      parseDateSpec (a ++ '/' :: (b ++ '/' :: c)) =
        Except.ok (strVal b, strVal a, strVal c)) ∧
    (1 ≤ strVal a ∧ strVal a ≤ 31 ∧ 1 ≤ strVal b ∧ strVal b ≤ 12 ∧ 1000 ≤ strVal c →
      parseDateSpec (a ++ '.' :: (b ++ '.' :: c)) =
        Except.ok (strVal a, strVal b, strVal c)) := by
  constructor
  · intro hr
    obtain ⟨a0, a', rfl⟩ : ∃ a0 a', a = a0 :: a' := by
      cases a with
      | nil => exact absurd rfl ha.1
      | cons a0 a' => exact ⟨a0, a', rfl⟩
    have hnodot : ∀ x ∈ (a0 :: a') ++ '/' :: (b ++ '/' :: c), x ≠ '.' := by
      intro x hx
      rcases List.mem_append.1 hx with h1 | h2
      · exact all_ne_of_digits ha.2 (by decide) x h1
      · rcases List.mem_cons.1 h2 with h3 | h4
        · subst h3; decide
        · rcases List.mem_append.1 h4 with h5 | h6
          · exact all_ne_of_digits hb.2 (by decide) x h5
          · rcases List.mem_cons.1 h6 with h7 | h8
            · subst h7; decide
            · exact all_ne_of_digits hc.2 (by decide) x h8
    have hdot : splitOnChar '.' ((a0 :: a') ++ '/' :: (b ++ '/' :: c)) =
        [(a0 :: a') ++ '/' :: (b ++ '/' :: c)] := by
      unfold splitOnChar
      rw [splitOnCharAux_no_sep hnodot]
      simp
    have hslash : splitOnChar '/' ((a0 :: a') ++ '/' :: (b ++ '/' :: c)) =
        [a0 :: a', b, c] :=
      splitOnChar_three (all_ne_of_digits ha.2 (by decide))
        (all_ne_of_digits hb.2 (by decide)) (all_ne_of_digits hc.2 (by decide))
    rw [parseDateSpec]
    simp only [List.cons_append, List.isEmpty_cons]
    rw [← List.cons_append, hdot, hslash]
    simp only [Bool.false_eq_true, if_false]
    show validateDMY (jsNumber b) (jsNumber (a0 :: a')) (jsNumber c) = _
    rw [jsNumber_digits ha.2, jsNumber_digits hb.2, jsNumber_digits hc.2]
    rw [validateDMY, if_neg (by omega)]
  · intro hr
    obtain ⟨a0, a', rfl⟩ : ∃ a0 a', a = a0 :: a' := by
      cases a with
      | nil => exact absurd rfl ha.1
      | cons a0 a' => exact ⟨a0, a', rfl⟩
    have hsplit : splitOnChar '.' ((a0 :: a') ++ '.' :: (b ++ '.' :: c)) = [a0 :: a', b, c] :=
      splitOnChar_three (all_ne_of_digits ha.2 (by decide))
        (all_ne_of_digits hb.2 (by decide)) (all_ne_of_digits hc.2 (by decide))
    rw [parseDateSpec]
    simp only [List.cons_append, List.isEmpty_cons]
    rw [← List.cons_append, hsplit]
    simp only [Bool.false_eq_true, if_false]
    show validateDMY (jsNumber (a0 :: a')) (jsNumber b) (jsNumber c) = _
    rw [jsNumber_digits ha.2, jsNumber_digits hb.2, jsNumber_digits hc.2]
    rw [validateDMY, if_neg (by omega)]

/-- Witness for C1 at the spec's example: `"02/01/2025"` parses month-first to
day 1, month 2, year 2025, while `"02.01.2025"` parses day-first. -/
theorem parseDateSpec_slash_month_first_witness :
    parseDateSpec (str "02/01/2025") = Except.ok (1, 2, 2025) ∧
    parseDateSpec (str "02.01.2025") = Except.ok (2, 1, 2025) := by
  have h := parseDateSpec_slash_month_first (str "02") (str "01") (str "2025")
    ⟨by decide, by decide⟩ ⟨by decide, by decide⟩ ⟨by decide, by decide⟩
  exact ⟨h.1 (by refine ⟨?_, ?_, ?_, ?_, ?_⟩ <;> decide),
         h.2 (by refine ⟨?_, ?_, ?_, ?_, ?_⟩ <;> decide)⟩

theorem insertCmp_append_nonneg {α : Type} (cmp : α → α → Int) (x : α) (l₁ l₂ : List α)
    (h : ∀ y ∈ l₂, ¬ cmp y x < 0) :
    insertCmp cmp x (l₁ ++ l₂) = insertCmp cmp x l₁ ++ l₂ := by
  induction l₁ with
  | nil =>
    simp only [List.nil_append, insertCmp]
    cases l₂ with
    | nil => rfl
    | cons y ys =>
      rw [insertCmp, if_neg (h y (List.mem_cons_self y ys))]
      rfl
  | cons z l₁ ih =>
    simp only [List.cons_append, insertCmp, List.append_eq]
    by_cases hz : cmp z x < 0
    · rw [if_pos hz, if_pos hz, ih, List.cons_append]
    · rw [if_neg hz, if_neg hz]
      rfl

theorem insertCmp_all_neg {α : Type} (cmp : α → α → Int) (x : α) (l : List α)
    (h : ∀ y ∈ l, cmp y x < 0) :
    insertCmp cmp x l = l ++ [x] := by
  induction l with
  | nil => rfl
  | cons y ys ih =>
    rw [insertCmp, if_pos (h y (List.mem_cons_self y ys)),
      ih (fun z hz => h z (List.mem_cons_of_mem y hz)), List.cons_append]

theorem insertCmp_perm {α : Type} (cmp : α → α → Int) (x : α) (l : List α) :
    List.Perm (insertCmp cmp x l) (x :: l) := by
  induction l with
  | nil => exact List.Perm.refl _
  | cons y ys ih =>
    rw [insertCmp]
    by_cases hy : cmp y x < 0
    · rw [if_pos hy]
      exact ((ih.cons y).trans (List.Perm.swap x y ys))
    · rw [if_neg hy]

theorem jsSortCmp_perm {α : Type} (cmp : α → α → Int) (l : List α) :
    List.Perm (jsSortCmp cmp l) l := by
  induction l with
  | nil => exact List.Perm.refl _
  | cons x xs ih =>
    exact (insertCmp_perm cmp x (jsSortCmp cmp xs)).trans (ih.cons x)

theorem mem_jsSortCmp {α : Type} {cmp : α → α → Int} {l : List α} {y : α}
    (h : y ∈ jsSortCmp cmp l) : y ∈ l :=
  (jsSortCmp_perm cmp l).mem_iff.1 h

theorem classifyWith_errMarker_iff (p : Str → Bool) (s : Str) :
    classifyWith p s = Tier.errMarker ↔ includesError s = true := by
  unfold classifyWith
  by_cases h : includesError s = true
  · simp [h]
  · simp only [Bool.not_eq_true] at h
    by_cases hp : p s = true <;> simp [h, hp]

theorem classifyWith_valid_iff (p : Str → Bool) (s : Str) :
    classifyWith p s = Tier.valid ↔ includesError s = false ∧ p s = true := by
  unfold classifyWith
  by_cases h : includesError s = true
  · simp [h]
  · simp only [Bool.not_eq_true] at h
    by_cases hp : p s = true <;> simp [h, hp]

theorem classifyWith_invalid_iff (p : Str → Bool) (s : Str) :
    classifyWith p s = Tier.invalid ↔ includesError s = false ∧ p s = false := by
  unfold classifyWith
  by_cases h : includesError s = true
  · simp [h]
  · simp only [Bool.not_eq_true] at h
    by_cases hp : p s = true <;> simp [h, hp]

theorem parseOkB_true_iff (s : Str) : parseOkB s = true ↔ ∃ d, parseDate s = Except.ok d := by
  unfold parseOkB
  cases h : parseDate s <;> simp [Except.isOk, Except.toBool, h]

theorem parseOkB_false_iff (s : Str) :
    parseOkB s = false ↔ ∃ e, parseDate s = Except.error e := by
  unfold parseOkB
  cases h : parseDate s <;> simp [Except.isOk, Except.toBool, h]

theorem compareResults_tier_lt {dir : Dir} {y x : DomainResult}
    (h : tierNum (classifyRes y.result) < tierNum (classifyRes x.result)) :
    compareResults dir y x < 0 := by
  unfold compareResults compareResultsP
  cases hy : classifyRes y.result <;> cases hx : classifyRes x.result <;>
    simp [hy, hx, tierNum] at h ⊢ <;> clear h
  · -- y valid, x invalid
    obtain ⟨hye, hyp⟩ := (classifyWith_valid_iff _ _).1 hy
    obtain ⟨hxe, hxp⟩ := (classifyWith_invalid_iff _ _).1 hx
    obtain ⟨dy, hdy⟩ := (parseOkB_true_iff _).1 hyp
    obtain ⟨ex, hex⟩ := (parseOkB_false_iff _).1 hxp
    simp [hye, hxe, hdy, hex]
  · -- y valid, x errMarker
    obtain ⟨hye, _⟩ := (classifyWith_valid_iff _ _).1 hy
    have hxe := (classifyWith_errMarker_iff _ _).1 hx
    simp [hye, hxe]
  · -- y invalid, x errMarker
    obtain ⟨hye, _⟩ := (classifyWith_invalid_iff _ _).1 hy
    have hxe := (classifyWith_errMarker_iff _ _).1 hx
    simp [hye, hxe]

theorem compareResults_nonneg {dir : Dir} {y x : DomainResult}
    (h1 : tierNum (classifyRes x.result) ≤ tierNum (classifyRes y.result))
    (h2 : classifyRes y.result ≠ Tier.valid) :
    0 ≤ compareResults dir y x := by
  unfold compareResults compareResultsP
  cases hy : classifyRes y.result <;> cases hx : classifyRes x.result <;>
    simp [hy, hx, tierNum] at h1 h2 ⊢
  · -- y invalid, x valid
    obtain ⟨hye, hyp⟩ := (classifyWith_invalid_iff _ _).1 hy
    obtain ⟨hxe, hxp⟩ := (classifyWith_valid_iff _ _).1 hx
    obtain ⟨ey, hey⟩ := (parseOkB_false_iff _).1 hyp
    obtain ⟨dx, hdx⟩ := (parseOkB_true_iff _).1 hxp
    simp [hye, hxe, hey, hdx]
  · -- y invalid, x invalid
    obtain ⟨hye, hyp⟩ := (classifyWith_invalid_iff _ _).1 hy
    obtain ⟨hxe, hxp⟩ := (classifyWith_invalid_iff _ _).1 hx
    obtain ⟨ey, hey⟩ := (parseOkB_false_iff _).1 hyp
    obtain ⟨ex, hex⟩ := (parseOkB_false_iff _).1 hxp
    simp [hye, hxe, hey, hex]
  · -- y errMarker, x arbitrary
    have hye := (classifyWith_errMarker_iff _ _).1 hy
    cases hxe : includesError x.result <;> simp [hye, hxe]
  · have hye := (classifyWith_errMarker_iff _ _).1 hy
    cases hxe : includesError x.result <;> simp [hye, hxe]
  · have hye := (classifyWith_errMarker_iff _ _).1 hy
    cases hxe : includesError x.result <;> simp [hye, hxe]

theorem tier_eq_of_isValidB {r : DomainResult} (h : isValidB r = true) :
    classifyRes r.result = Tier.valid := by
  unfold isValidB at h
  exact eq_of_beq h

theorem tier_eq_of_isInvalidB {r : DomainResult} (h : isInvalidB r = true) :
    classifyRes r.result = Tier.invalid := by
  unfold isInvalidB at h
  exact eq_of_beq h

theorem tier_eq_of_isErrB {r : DomainResult} (h : isErrB r = true) :
    classifyRes r.result = Tier.errMarker := by
  unfold isErrB at h
  exact eq_of_beq h

/-- The effective behaviour of `sortResults` on an array: the `Valid`-tier
entries, ordered by the comparator, then the `Invalid`-tier entries in input
order, then the `ErrorMarker`-tier entries in input order. -/
theorem sortResults_eq_partition (l : List DomainResult) (dir : Dir) :
    sortResults l dir =
      jsSortCmp (compareResults dir) (l.filter isValidB) ++
        (l.filter isInvalidB ++ l.filter isErrB) := by
  induction l with
  | nil => rfl
  | cons x xs ih =>
    have hstep : sortResults (x :: xs) dir =
        insertCmp (compareResults dir) x (sortResults xs dir) := rfl
    rw [hstep, ih]
    have hmemV : ∀ y ∈ jsSortCmp (compareResults dir) (xs.filter isValidB),
        classifyRes y.result = Tier.valid := fun y hy =>
      tier_eq_of_isValidB (List.of_mem_filter (mem_jsSortCmp hy))
    have hmemI : ∀ y ∈ xs.filter isInvalidB, classifyRes y.result = Tier.invalid :=
      fun y hy => tier_eq_of_isInvalidB (List.of_mem_filter hy)
    have hmemE : ∀ y ∈ xs.filter isErrB, classifyRes y.result = Tier.errMarker :=
      fun y hy => tier_eq_of_isErrB (List.of_mem_filter hy)
    cases hx : classifyRes x.result with
    | valid =>
      have hfV : (x :: xs).filter isValidB = x :: xs.filter isValidB := by
        rw [List.filter_cons_of_pos]
        simp [isValidB, hx]
      have hfI : (x :: xs).filter isInvalidB = xs.filter isInvalidB := by
        rw [List.filter_cons_of_neg]
        simp [isInvalidB, hx]
      have hfE : (x :: xs).filter isErrB = xs.filter isErrB := by
        rw [List.filter_cons_of_neg]
        simp [isErrB, hx]
      rw [hfV, hfI, hfE]
      have : jsSortCmp (compareResults dir) (x :: xs.filter isValidB) =
          insertCmp (compareResults dir) x (jsSortCmp (compareResults dir) (xs.filter isValidB)) :=
        rfl
      rw [this, insertCmp_append_nonneg]
      intro y hy
      rcases List.mem_append.1 hy with h1 | h2
      · exact not_lt.2 (compareResults_nonneg
          (by rw [hmemI y h1, hx]; exact Nat.le_refl _ |>.trans (by simp [tierNum]))
          (by rw [hmemI y h1]; intro hc; cases hc))
      · exact not_lt.2 (compareResults_nonneg
          (by rw [hmemE y h2, hx]; simp [tierNum])
          (by rw [hmemE y h2]; intro hc; cases hc))
    | invalid =>
      have hfV : (x :: xs).filter isValidB = xs.filter isValidB := by
        rw [List.filter_cons_of_neg]
        simp [isValidB, hx]
      have hfI : (x :: xs).filter isInvalidB = x :: xs.filter isInvalidB := by
        rw [List.filter_cons_of_pos]
        simp [isInvalidB, hx]
      have hfE : (x :: xs).filter isErrB = xs.filter isErrB := by
        rw [List.filter_cons_of_neg]
        simp [isErrB, hx]
      rw [hfV, hfI, hfE]
      have hlt : ∀ y ∈ jsSortCmp (compareResults dir) (xs.filter isValidB),
          compareResults dir y x < 0 := fun y hy =>
        compareResults_tier_lt (by rw [hmemV y hy, hx]; simp [tierNum])
      have hge : ∀ y ∈ xs.filter isInvalidB ++ xs.filter isErrB,
          ¬ compareResults dir y x < 0 := by
        intro y hy
        rcases List.mem_append.1 hy with h1 | h2
        · exact not_lt.2 (compareResults_nonneg
            (by rw [hmemI y h1, hx]) (by rw [hmemI y h1]; intro hc; cases hc))
        · exact not_lt.2 (compareResults_nonneg
            (by rw [hmemE y h2, hx]; simp [tierNum])
            (by rw [hmemE y h2]; intro hc; cases hc))
      rw [insertCmp_append_nonneg _ _ _ _ hge, insertCmp_all_neg _ _ _ hlt]
      simp
    | errMarker =>
      have hfV : (x :: xs).filter isValidB = xs.filter isValidB := by
        rw [List.filter_cons_of_neg]
        simp [isValidB, hx]
      have hfI : (x :: xs).filter isInvalidB = xs.filter isInvalidB := by
        rw [List.filter_cons_of_neg]
        simp [isInvalidB, hx]
      have hfE : (x :: xs).filter isErrB = x :: xs.filter isErrB := by
        rw [List.filter_cons_of_pos]
        simp [isErrB, hx]
      rw [hfV, hfI, hfE]
      have hlt : ∀ y ∈ jsSortCmp (compareResults dir) (xs.filter isValidB) ++
          xs.filter isInvalidB, compareResults dir y x < 0 := by
        intro y hy
        rcases List.mem_append.1 hy with h1 | h2
        · exact compareResults_tier_lt (by rw [hmemV y h1, hx]; simp [tierNum])
        · exact compareResults_tier_lt (by rw [hmemI y h2, hx]; simp [tierNum])
      have hge : ∀ y ∈ xs.filter isErrB, ¬ compareResults dir y x < 0 := fun y hy =>
        not_lt.2 (compareResults_nonneg
          (by rw [hmemE y hy, hx]) (by rw [hmemE y hy]; intro hc; cases hc))
      calc insertCmp (compareResults dir) x
            (jsSortCmp (compareResults dir) (xs.filter isValidB) ++
              (xs.filter isInvalidB ++ xs.filter isErrB))
          = insertCmp (compareResults dir) x
            ((jsSortCmp (compareResults dir) (xs.filter isValidB) ++
              xs.filter isInvalidB) ++ xs.filter isErrB) := by
            rw [List.append_assoc]
        _ = insertCmp (compareResults dir) x
            (jsSortCmp (compareResults dir) (xs.filter isValidB) ++
              xs.filter isInvalidB) ++ xs.filter isErrB :=
            insertCmp_append_nonneg _ _ _ _ hge
        _ = ((jsSortCmp (compareResults dir) (xs.filter isValidB) ++
              xs.filter isInvalidB) ++ [x]) ++ xs.filter isErrB := by
            rw [insertCmp_all_neg _ _ _ hlt]
        _ = jsSortCmp (compareResults dir) (xs.filter isValidB) ++
            (xs.filter isInvalidB ++ x :: xs.filter isErrB) := by simp

theorem compareResultsP_antisym (p : Str → Except ParseErr Int) (dir : Dir)
    (a b : DomainResult) :
    compareResultsP p dir b a = -compareResultsP p dir a b := by
  unfold compareResultsP
  cases ha : includesError a.result <;> cases hb : includesError b.result <;>
    simp [ha, hb] <;>
    cases hpa : p a.result <;> cases hpb : p b.result <;> simp [hpa, hpb] <;>
    cases dir <;> simp

theorem compareResults_antisym (dir : Dir) (a b : DomainResult) :
    compareResults dir b a = -compareResults dir a b :=
  compareResultsP_antisym parseDate dir a b

/-- Sortedness in the sense the comparator sort produces: no adjacent pair is
strictly out of order. -/
def SortedCmp (cmp : α → α → Int) (l : List α) : Prop :=
  List.Chain' (fun a b => ¬ cmp b a < 0) l

theorem sortedCmp_insertCmp {α : Type} {cmp : α → α → Int}
    (hanti : ∀ a b, cmp b a = -cmp a b) (x : α) {l : List α} (hl : SortedCmp cmp l) :
    SortedCmp cmp (insertCmp cmp x l) := by
  induction l with
  | nil => exact List.chain'_singleton x
  | cons y ys ih =>
    rw [insertCmp]
    by_cases hy : cmp y x < 0
    · rw [if_pos hy]
      have hys : SortedCmp cmp ys := hl.tail
      have hrec := ih hys
      cases hys' : ys with
      | nil =>
        subst hys'
        refine List.chain'_cons.2 ⟨?_, List.chain'_singleton x⟩
        rw [hanti y x]
        omega
      | cons z zs =>
        subst hys'
        have hyz : ¬ cmp z y < 0 := (List.chain'_cons.1 hl).1
        rw [insertCmp] at hrec ⊢
        by_cases hz : cmp z x < 0
        · rw [if_pos hz] at hrec ⊢
          exact List.chain'_cons.2 ⟨hyz, hrec⟩
        · rw [if_neg hz] at hrec ⊢
          refine List.chain'_cons.2 ⟨?_, hrec⟩
          rw [hanti y x]
          omega
    · rw [if_neg hy]
      exact List.chain'_cons.2 ⟨hy, hl⟩

theorem sortedCmp_jsSortCmp {α : Type} {cmp : α → α → Int}
    (hanti : ∀ a b, cmp b a = -cmp a b) (l : List α) :
    SortedCmp cmp (jsSortCmp cmp l) := by
  induction l with
  | nil => exact List.chain'_nil
  | cons x xs ih => exact sortedCmp_insertCmp hanti x ih

theorem insertCmp_head_not_lt {α : Type} {cmp : α → α → Int} {x : α} {l : List α}
    (h : ∀ y ∈ l.head?, ¬ cmp y x < 0) :
    insertCmp cmp x l = x :: l := by
  cases l with
  | nil => rfl
  | cons y ys =>
    rw [insertCmp, if_neg (h y rfl)]

theorem jsSortCmp_of_sorted {α : Type} {cmp : α → α → Int} {l : List α}
    (hl : SortedCmp cmp l) :
    jsSortCmp cmp l = l := by
  induction l with
  | nil => rfl
  | cons x xs ih =>
    have hxs : jsSortCmp cmp xs = xs := ih hl.tail
    show insertCmp cmp x (jsSortCmp cmp xs) = x :: xs
    rw [hxs]
    apply insertCmp_head_not_lt
    intro y hy
    cases xs with
    | nil => cases hy
    | cons z zs =>
      cases hy
      exact (List.chain'_cons.1 hl).1

theorem jsSortCmp_idem {α : Type} {cmp : α → α → Int}
    (hanti : ∀ a b, cmp b a = -cmp a b) (l : List α) :
    jsSortCmp cmp (jsSortCmp cmp l) = jsSortCmp cmp l :=
  jsSortCmp_of_sorted (sortedCmp_jsSortCmp hanti l)

theorem isValidB_iff (r : DomainResult) :
    isValidB r = true ↔ classifyRes r.result = Tier.valid := by
  simp [isValidB]

theorem isInvalidB_iff (r : DomainResult) :
    isInvalidB r = true ↔ classifyRes r.result = Tier.invalid := by
  simp [isInvalidB]

theorem isErrB_iff (r : DomainResult) :
    isErrB r = true ↔ classifyRes r.result = Tier.errMarker := by
  simp [isErrB]

theorem isValidB_false {r : DomainResult} (h : classifyRes r.result ≠ Tier.valid) :
    isValidB r = false := by
  cases hv : isValidB r with
  | false => rfl
  | true => exact absurd ((isValidB_iff r).1 hv) h

theorem isInvalidB_false {r : DomainResult} (h : classifyRes r.result ≠ Tier.invalid) :
    isInvalidB r = false := by
  cases hv : isInvalidB r with
  | false => rfl
  | true => exact absurd ((isInvalidB_iff r).1 hv) h

theorem isErrB_false {r : DomainResult} (h : classifyRes r.result ≠ Tier.errMarker) :
    isErrB r = false := by
  cases hv : isErrB r with
  | false => rfl
  | true => exact absurd ((isErrB_iff r).1 hv) h

theorem filter_eq_nil_of_all_false {m : List DomainResult} {p : DomainResult → Bool}
    (h : ∀ a ∈ m, p a = false) : m.filter p = [] :=
  List.filter_eq_nil_iff.2 (fun a ha hc => by rw [h a ha] at hc; cases hc)

theorem filter_sortResults_valid (l : List DomainResult) (dir : Dir) :
    (sortResults l dir).filter isValidB =
      jsSortCmp (compareResults dir) (l.filter isValidB) := by
  rw [sortResults_eq_partition, List.filter_append, List.filter_append]
  have h1 : (jsSortCmp (compareResults dir) (l.filter isValidB)).filter isValidB =
      jsSortCmp (compareResults dir) (l.filter isValidB) :=
    List.filter_eq_self.2 (fun a ha => (isValidB_iff a).2
      (tier_eq_of_isValidB (List.of_mem_filter (mem_jsSortCmp ha))))
  have h2 : (l.filter isInvalidB).filter isValidB = [] :=
    filter_eq_nil_of_all_false (fun a ha =>
      isValidB_false (by rw [tier_eq_of_isInvalidB (List.of_mem_filter ha)]; intro hc; cases hc))
  have h3 : (l.filter isErrB).filter isValidB = [] :=
    filter_eq_nil_of_all_false (fun a ha =>
      isValidB_false (by rw [tier_eq_of_isErrB (List.of_mem_filter ha)]; intro hc; cases hc))
  rw [h1, h2, h3]
  simp

theorem filter_sortResults_invalid (l : List DomainResult) (dir : Dir) :
    (sortResults l dir).filter isInvalidB = l.filter isInvalidB := by
  rw [sortResults_eq_partition, List.filter_append, List.filter_append]
  have h1 : (jsSortCmp (compareResults dir) (l.filter isValidB)).filter isInvalidB = [] :=
    filter_eq_nil_of_all_false (fun a ha =>
      isInvalidB_false (by
        rw [tier_eq_of_isValidB (List.of_mem_filter (mem_jsSortCmp ha))]
        intro hc; cases hc))
  have h2 : (l.filter isInvalidB).filter isInvalidB = l.filter isInvalidB :=
    List.filter_eq_self.2 (fun a ha => List.of_mem_filter ha)
  have h3 : (l.filter isErrB).filter isInvalidB = [] :=
    filter_eq_nil_of_all_false (fun a ha =>
      isInvalidB_false (by rw [tier_eq_of_isErrB (List.of_mem_filter ha)]; intro hc; cases hc))
  rw [h1, h2, h3]
  simp

theorem filter_sortResults_err (l : List DomainResult) (dir : Dir) :
    (sortResults l dir).filter isErrB = l.filter isErrB := by
  rw [sortResults_eq_partition, List.filter_append, List.filter_append]
  have h1 : (jsSortCmp (compareResults dir) (l.filter isValidB)).filter isErrB = [] :=
    filter_eq_nil_of_all_false (fun a ha =>
      isErrB_false (by
        rw [tier_eq_of_isValidB (List.of_mem_filter (mem_jsSortCmp ha))]
        intro hc; cases hc))
  have h2 : (l.filter isInvalidB).filter isErrB = [] :=
    filter_eq_nil_of_all_false (fun a ha =>
      isErrB_false (by rw [tier_eq_of_isInvalidB (List.of_mem_filter ha)]; intro hc; cases hc))
  have h3 : (l.filter isErrB).filter isErrB = l.filter isErrB :=
    List.filter_eq_self.2 (fun a ha => List.of_mem_filter ha)
  rw [h1, h2, h3]
  simp

/-- C2: in every sorted output, for both directions, the tier rank is
monotone along the list — every `Valid` entry precedes every `Invalid` entry,
which precedes every `ErrorMarker` entry — and the subsequence of non-`Valid`
entries is identical for the two directions, so the direction argument can
only reorder `Valid`-vs-`Valid` pairs. -/
theorem sortResults_tier_order (l : List DomainResult) (dir : Dir) :
    List.Pairwise
      (fun a b => tierNum (classifyRes a.result) ≤ tierNum (classifyRes b.result))
      (sortResults l dir) ∧
    ∀ dir' : Dir,
      (sortResults l dir).filter (fun r => ! isValidB r) =
        (sortResults l dir').filter (fun r => ! isValidB r) := by
  constructor
  · rw [sortResults_eq_partition]
    refine List.pairwise_append.2 ⟨?_, ?_, ?_⟩
    · exact List.pairwise_of_forall_mem_list (fun a ha b hb => by
        rw [tier_eq_of_isValidB (List.of_mem_filter (mem_jsSortCmp ha))]
        exact Nat.zero_le _)
    · refine List.pairwise_append.2 ⟨?_, ?_, ?_⟩
      · exact List.pairwise_of_forall_mem_list (fun a ha b hb => by
          rw [tier_eq_of_isInvalidB (List.of_mem_filter ha),
            tier_eq_of_isInvalidB (List.of_mem_filter hb)])
      · exact List.pairwise_of_forall_mem_list (fun a ha b hb => by
          rw [tier_eq_of_isErrB (List.of_mem_filter ha),
            tier_eq_of_isErrB (List.of_mem_filter hb)])
      · intro a ha b hb
        rw [tier_eq_of_isInvalidB (List.of_mem_filter ha),
          tier_eq_of_isErrB (List.of_mem_filter hb)]
        exact Nat.le_succ _
    · intro a ha b hb
      rw [tier_eq_of_isValidB (List.of_mem_filter (mem_jsSortCmp ha))]
      exact Nat.zero_le _
  · intro dir'
    have key : ∀ d : Dir, (sortResults l d).filter (fun r => ! isValidB r) =
        l.filter isInvalidB ++ l.filter isErrB := by
      intro d
      rw [sortResults_eq_partition, List.filter_append, List.filter_append]
      have h1 : (jsSortCmp (compareResults d) (l.filter isValidB)).filter
          (fun r => ! isValidB r) = [] :=
        filter_eq_nil_of_all_false (fun a ha => by
          have hv : isValidB a = true := (isValidB_iff a).2
            (tier_eq_of_isValidB (List.of_mem_filter (mem_jsSortCmp ha)))
          rw [hv]
          rfl)
      have h2 : (l.filter isInvalidB).filter (fun r => ! isValidB r) =
          l.filter isInvalidB :=
        List.filter_eq_self.2 (fun a ha => by
          rw [isValidB_false (by
            rw [tier_eq_of_isInvalidB (List.of_mem_filter ha)]
            intro hc; cases hc)]
          rfl)
      have h3 : (l.filter isErrB).filter (fun r => ! isValidB r) = l.filter isErrB :=
        List.filter_eq_self.2 (fun a ha => by
          rw [isValidB_false (by
            rw [tier_eq_of_isErrB (List.of_mem_filter ha)]
            intro hc; cases hc)]
          rfl)
      rw [h1, h2, h3]
      simp
    rw [key dir, key dir']

/-- C6: `sortResults` is stable on the `Invalid` and `ErrorMarker` tiers — for
both directions, the entries landing in each of those tiers appear in the
output exactly in their input order. -/
theorem sortResults_stable_nonvalid (l : List DomainResult) (dir : Dir) :
    (sortResults l dir).filter isInvalidB = l.filter isInvalidB ∧
    (sortResults l dir).filter isErrB = l.filter isErrB :=
  ⟨filter_sortResults_invalid l dir, filter_sortResults_err l dir⟩

/-- C9: sorting is idempotent — applying `sortResults` twice with the same
direction yields the same sequence as applying it once. -/
theorem sortResults_idempotent (l : List DomainResult) (dir : Dir) :
    sortResults (sortResults l dir) dir = sortResults l dir := by
  have hanti : ∀ a b : DomainResult,
      compareResults dir b a = -compareResults dir a b :=
    fun a b => compareResults_antisym dir a b
  conv_lhs => rw [sortResults_eq_partition]
  rw [filter_sortResults_valid, filter_sortResults_invalid, filter_sortResults_err]
  rw [jsSortCmp_idem hanti]
  rw [← sortResults_eq_partition]

/-- C3: `sortResults` throws the invalid-input error exactly when its argument
is not an array; on every array it returns the sorted array — individual
entries never abort the sort. -/
theorem sortResultsJs_error_iff_not_array (v : JsVal) (dir : Dir) :
    ((∃ out, sortResultsJs v dir = Except.ok out) ↔ ∃ l, v = JsVal.arr l) ∧
    ((∀ l, v ≠ JsVal.arr l) →
      sortResultsJs v dir = Except.error (str "Results must be an array")) ∧
    (∀ l, v = JsVal.arr l → sortResultsJs v dir = Except.ok (sortResults l dir)) := by
  cases v <;> simp [sortResultsJs]

/-- Witness for C3: the spec's two non-array examples throw, and an actual
array does not. -/
theorem sortResultsJs_error_iff_not_array_witness :
    sortResultsJs (JsVal.strV (str "not an array")) Dir.asc =
      Except.error (str "Results must be an array") ∧
    sortResultsJs JsVal.nullV Dir.asc = Except.error (str "Results must be an array") ∧
    sortResultsJs (JsVal.arr [⟨str "a.co", str "oops"⟩]) Dir.asc =
      Except.ok [⟨str "a.co", str "oops"⟩] := by
  refine ⟨?_, ?_, ?_⟩
  · exact (sortResultsJs_error_iff_not_array (JsVal.strV (str "not an array")) Dir.asc).2.1
      (fun l h => JsVal.noConfusion h)
  · exact (sortResultsJs_error_iff_not_array JsVal.nullV Dir.asc).2.1
      (fun l h => JsVal.noConfusion h)
  · exact (sortResultsJs_error_iff_not_array (JsVal.arr [⟨str "a.co", str "oops"⟩]) Dir.asc).2.2
      [⟨str "a.co", str "oops"⟩] rfl

/-- C4: a result string containing the substring `"Error"` is always
classified `ErrorMarker`, never `Valid` or `Invalid`, whatever the date
parser would say, and the sort comparator's verdict on such an entry is the
same under every parser — the parser is never consulted for it. -/
theorem errMarker_shortcircuits_parsing (s : Str) (hs : includesError s = true) :
    (∀ p : Str → Bool, classifyWith p s = Tier.errMarker ∧
      classifyWith p s ≠ Tier.valid ∧ classifyWith p s ≠ Tier.invalid) ∧
    (∀ (pa pb : Str → Except ParseErr Int) (dir : Dir) (a b : DomainResult),
      a.result = s ∨ b.result = s →
      compareResultsP pa dir a b = compareResultsP pb dir a b) := by
  constructor
  · intro p
    have h := (classifyWith_errMarker_iff p s).2 hs
    refine ⟨h, ?_, ?_⟩ <;> rw [h] <;> intro hc <;> cases hc
  · intro pa pb dir a b hab
    unfold compareResultsP
    rcases hab with h | h
    · rw [h, hs]
      cases hb : includesError b.result <;> simp
    · rw [h, hs]
      cases ha : includesError a.result <;> simp

/-- Witness for C4: the retrieval layer's actual sentinel `"   Error  "` is an
`ErrorMarker` under any parser, and the comparator treats an entry carrying it
identically under the real parser and under a parser that accepts everything
differently. -/
theorem errMarker_shortcircuits_parsing_witness :
    classifyWith (fun _ => true) (str "   Error  ") = Tier.errMarker ∧
    compareResultsP parseDate Dir.asc
        ⟨str "err.example", str "   Error  "⟩ ⟨str "ok.example", str "01.01.2025"⟩ =
      compareResultsP (fun _ => Except.error ParseErr.invalidInput) Dir.asc
        ⟨str "err.example", str "   Error  "⟩ ⟨str "ok.example", str "01.01.2025"⟩ := by
  have h := errMarker_shortcircuits_parsing (str "   Error  ") (by decide)
  exact ⟨(h.1 (fun _ => true)).1,
    h.2 parseDate (fun _ => Except.error ParseErr.invalidInput) Dir.asc
      ⟨str "err.example", str "   Error  "⟩ ⟨str "ok.example", str "01.01.2025"⟩
      (Or.inl rfl)⟩

/-- C10: on an array, `sortResults` sorts in place — it returns the very
reference it was handed, the heap cell behind that reference now holds the
same elements reordered, and every other heap cell is untouched. -/
theorem sortResults_in_place (h : Heap) (r : Nat) (dir : Dir) (l : List DomainResult)
    (hl : h r = JsVal.arr l) :
    sortResultsRef h r dir =
      Except.ok (r, writeRef h r (JsVal.arr (sortResults l dir))) ∧
    writeRef h r (JsVal.arr (sortResults l dir)) r = JsVal.arr (sortResults l dir) ∧
    (∀ q, q ≠ r → writeRef h r (JsVal.arr (sortResults l dir)) q = h q) ∧
    List.Perm (sortResults l dir) l := by
  refine ⟨?_, ?_, ?_, ?_⟩
  · unfold sortResultsRef
    rw [hl]
  · unfold writeRef
    rw [if_pos rfl]
  · intro q hq
    unfold writeRef
    rw [if_neg hq]
  · exact jsSortCmp_perm _ l

/-- Witness for C10 at a two-element heap cell: the same reference comes back
and its contents are the sorted elements, while the neighbouring cell is
unchanged. -/
theorem sortResults_in_place_witness :
    sortResultsRef
        (fun _ => JsVal.arr [⟨str "e.example", str "   Error  "⟩,
          ⟨str "d.example", str "01.01.2025"⟩]) 0 Dir.asc =
      Except.ok (0, writeRef
        (fun _ => JsVal.arr [⟨str "e.example", str "   Error  "⟩,
          ⟨str "d.example", str "01.01.2025"⟩]) 0
        (JsVal.arr (sortResults [⟨str "e.example", str "   Error  "⟩,
          ⟨str "d.example", str "01.01.2025"⟩] Dir.asc))) ∧
    List.Perm (sortResults [⟨str "e.example", str "   Error  "⟩,
      ⟨str "d.example", str "01.01.2025"⟩] Dir.asc)
      [⟨str "e.example", str "   Error  "⟩, ⟨str "d.example", str "01.01.2025"⟩] := by
  have h := sortResults_in_place
    (fun _ => JsVal.arr [⟨str "e.example", str "   Error  "⟩,
      ⟨str "d.example", str "01.01.2025"⟩]) 0 Dir.asc
    [⟨str "e.example", str "   Error  "⟩, ⟨str "d.example", str "01.01.2025"⟩] rfl
  exact ⟨h.1, h.2.2.2⟩

theorem le_foldl_domainLengthReducer (ds : List Str) :
    ∀ acc : Nat, acc ≤ ds.foldl domainLengthReducer acc := by
  induction ds with
  | nil => intro acc; exact Nat.le_refl acc
  | cons d ds ih =>
    intro acc
    exact le_trans (Nat.le_max_left acc d.length) (ih (max acc d.length))

theorem mem_le_foldl_domainLengthReducer (ds : List Str) :
    ∀ (acc : Nat) (d : Str), d ∈ ds → d.length ≤ ds.foldl domainLengthReducer acc := by
  induction ds with
  | nil => intro acc d hd; cases hd
  | cons e es ih =>
    intro acc d hd
    rcases List.mem_cons.1 hd with h | h
    · subst h
      exact le_trans (Nat.le_max_right acc d.length)
        (le_foldl_domainLengthReducer es (max acc d.length))
    · exact ih (max acc e.length) d h

theorem padEnd_length (s : Str) (n : Nat) : (padEnd s n).length = max s.length n := by
  unfold padEnd
  rw [List.length_append, List.length_replicate]
  omega

/-- C8 counterexample: at width 3 the separator is 27 characters, not
3 + 17 = 20 — the width is clamped to the 10-character minimum first. -/
theorem separator_plus17_counterexample :
    separator 3 ≠ List.replicate (3 + 17) '=' := by decide

/-- C8 amended: `separator(width)` is `'='` repeated
`max(width, 10) + 17` times; the claimed `width + 17` holds exactly when
`width ≥ 10`. -/
theorem separator_clamped_length (w : Nat) :
    (separator w).length = max w 10 + 17 ∧
    (∀ c ∈ separator w, c = '=') ∧
    (10 ≤ w → (separator w).length = w + 17) := by
  refine ⟨?_, ?_, ?_⟩
  · simp [separator]
  · intro c hc
    exact List.eq_of_mem_replicate hc
  · intro hw
    simp [separator, Nat.max_eq_left hw]

/-- Witness for C8 amended, at widths 3 (clamped to 27) and 12 (12 + 17). -/
theorem separator_clamped_length_witness :
    (separator 3).length = 27 ∧ (separator 12).length = 29 :=
  ⟨(separator_clamped_length 3).1.trans (by norm_num),
   ((separator_clamped_length 12).2.2 (by norm_num)).trans (by norm_num)⟩

/-- C7 counterexample: `formatResults` pads with `max(argument, 10)` and never
scans the batch for its longest domain; on a batch holding a 12-character
domain with width argument 3, the claimed `max(3, 10, 12) = 12` padding does
not match the output (the short domain is padded to 10, not 12). -/
theorem formatResults_batch_width_counterexample :
    formatResults [⟨str "a.co", str "01.01.2025"⟩,
        ⟨str "abcdefghijkl", str "01.01.2025"⟩] 3 ≠
      [str "| " ++ padEnd (str "a.co") 12 ++ str " | " ++ str "01.01.2025" ++ str " |",
       str "| " ++ padEnd (str "abcdefghijkl") 12 ++ str " | " ++
         str "01.01.2025" ++ str " |"] := by decide

/-- C7 amended: every line of `formatResults(results, w)` is
`"| " + domain padded to max(w, 10) + " | " + result + " |"`; the batch's
longest domain enters only through the callers, which pass the
`domainLengthReducer` fold of the domains as `w` — and whenever `w` is at
least that fold, every domain cell is exactly `max(w, 10)` wide, so the
columns align. -/
theorem formatResults_pads_to_max_arg_ten (results : List DomainResult) (w : Nat)
    (line : Str) (hline : line ∈ formatResults results w) :
    ∃ r, r ∈ results ∧
      line = str "| " ++ padEnd r.domain (max w 10) ++ str " | " ++ r.result ++ str " |" ∧
      ((results.map DomainResult.domain).foldl domainLengthReducer 0 ≤ w →
        (padEnd r.domain (max w 10)).length = max w 10) := by
  unfold formatResults at hline
  obtain ⟨r, hr, rfl⟩ := List.mem_map.1 hline
  refine ⟨r, hr, rfl, ?_⟩
  intro hw
  have hmem : r.domain ∈ results.map DomainResult.domain :=
    List.mem_map_of_mem DomainResult.domain hr
  have hd : r.domain.length ≤
      (results.map DomainResult.domain).foldl domainLengthReducer 0 :=
    mem_le_foldl_domainLengthReducer _ 0 r.domain hmem
  rw [padEnd_length]
  omega

/-- Witness for C7 amended at the spec's example: the single line of
`format([{domain:"a.co", result:"01.01.2025"}], 3)` is the 10-padded
`"| a.co       | 01.01.2025 |"` and its domain cell is exactly 10 wide. -/
theorem formatResults_pads_to_max_arg_ten_witness :
    (str "| a.co       | 01.01.2025 |") ∈
      formatResults [⟨str "a.co", str "01.01.2025"⟩] 3 ∧
    ∃ r, r ∈ [(⟨str "a.co", str "01.01.2025"⟩ : DomainResult)] ∧
      (str "| a.co       | 01.01.2025 |") =
        str "| " ++ padEnd r.domain (max 3 10) ++ str " | " ++ r.result ++ str " |" ∧
      (([(⟨str "a.co", str "01.01.2025"⟩ : DomainResult)].map
          DomainResult.domain).foldl domainLengthReducer 0 ≤ 3 →
        (padEnd r.domain (max 3 10)).length = max 3 10) :=
  ⟨by decide,
   formatResults_pads_to_max_arg_ten [⟨str "a.co", str "01.01.2025"⟩] 3
     (str "| a.co       | 01.01.2025 |") (by decide)⟩
